import Mathlib

/-!
Shallow embedding of the MAC verification layer in `digest/src/mac.rs`.

A concrete MAC algorithm is an external collaborator: it supplies a declared
output size `OutputSize` and, for a given key and absorbed message, a
deterministic full tag of exactly `OutputSize` bytes (the value returned by
`finalize_fixed`).  The verification protocol of this file only ever looks at
that computed full tag, so a finalized MAC instance is modelled by the pair
`(os, computed)` of its declared output size and its computed tag, with the
collaborator contract `computed.length = os` carried as a hypothesis.

Bytes are modelled as natural numbers (values below 256; none of the verified
properties depends on the bound).  Rust panics (out-of-bounds slice indexing,
`usize` underflow) are modelled by an `Option` layer: `none` is a panic.
-/

namespace MacSpec

/-- `pub struct MacError;` — the fieldless authentication-failure marker. -/
structure MacError
deriving DecidableEq

/-- `impl fmt::Display for MacError` writes the fixed string `"MAC tag mismatch"`. -/
def MacError.fmt (_ : MacError) : String := "MAC tag mismatch"

/-- Model of the `subtle` crate's `ConstantTimeEq` for `u8`: the verdict is
whether `a XOR b` is zero, computed branch-free. -/
def u8_ct_eq (a b : Nat) : Bool := (a ^^^ b) == 0

/-- Model of the `subtle` crate's `ConstantTimeEq` for `[u8]`: when the lengths
differ the verdict is false at once (lengths are public); otherwise the
per-byte verdicts are AND-accumulated over the whole zipped pair of slices,
with no early exit.  The second component counts the per-byte comparison steps
the loop executes. -/
def ct_eq_slice_run (a b : List Nat) : Bool × Nat :=
  if a.length ≠ b.length then (false, 0)
  else (a.zip b).foldl (fun acc p => (acc.1 && u8_ct_eq p.1 p.2, acc.2 + 1)) (true, 0)

/-- Verdict of the constant-time slice comparison (`unwrap_u8() == 1`). -/
def ct_eq_slice (a b : List Nat) : Bool := (ct_eq_slice_run a b).1

/-- Number of per-byte comparison steps the constant-time slice comparison
executes. -/
def ct_eq_slice_steps (a b : List Nat) : Nat := (ct_eq_slice_run a b).2

/-- `pub struct CtOutput<T> { bytes: Output<T> }`; `Output<T>` is a byte array
of length `OutputSize`, modelled as a byte list. -/
structure CtOutput where
  bytes : List Nat
deriving DecidableEq

/-- `CtOutput::new`. -/
def CtOutput.new (bytes : List Nat) : CtOutput := ⟨bytes⟩

/-- `CtOutput::into_bytes`. -/
def CtOutput.into_bytes (s : CtOutput) : List Nat := s.bytes

/-- `impl ConstantTimeEq for CtOutput`: delegates to the wrapped bytes. -/
def CtOutput.ct_eq (s x : CtOutput) : Bool := ct_eq_slice s.bytes x.bytes

/-- `impl PartialEq for CtOutput`: `self.ct_eq(x).unwrap_u8() == 1`. -/
def CtOutput.eq (s x : CtOutput) : Bool := s.ct_eq x

/-- Step count of `CtOutput` equality: the steps of the underlying slice
comparison it delegates to. -/
def CtOutput.eq_steps (s x : CtOutput) : Nat := ct_eq_slice_steps s.bytes x.bytes

/-- `impl From<Output<T>> for CtOutput<T>`. -/
def CtOutput.from_output (bytes : List Nat) : CtOutput := ⟨bytes⟩

/-- `impl From<&Output<T>> for CtOutput<T>`: `bytes.clone().into()`. -/
def CtOutput.from_output_ref (bytes : List Nat) : CtOutput :=
  CtOutput.from_output bytes

/-- Rust slice indexing `a[..n]` panics when `n > a.len()`; `none` models the
panic. -/
def checked_take (l : List Nat) (n : Nat) : Option (List Nat) :=
  if n ≤ l.length then some (l.take n) else none

/-- Rust slice indexing `a[m..]` panics when `m > a.len()`; `none` models the
panic. -/
def checked_drop (l : List Nat) (m : Nat) : Option (List Nat) :=
  if m ≤ l.length then some (l.drop m) else none

/-- Rust `usize` subtraction `a - b` panics on underflow in debug builds;
`none` models the underflow. -/
def checked_sub (a b : Nat) : Option Nat :=
  if b ≤ a then some (a - b) else none

/-- `Mac::verify`: `if self.finalize() == tag.into() { Ok(()) } else { Err(MacError) }`.
`self.finalize()` is `CtOutput::new(self.finalize_fixed())` and the candidate
tag is a `&Output<Self>`, converted by `From<&Output<T>>`. -/
def verify (computed tag : List Nat) : Except MacError Unit :=
  if (CtOutput.new computed).eq (CtOutput.from_output_ref tag) then .ok ()
  else .error MacError.mk

/-- `Mac::verify_slice`: fail immediately when `tag.len() != OutputSize`,
otherwise constant-time compare the computed tag with the candidate. -/
def verify_slice (os : Nat) (computed tag : List Nat) : Except MacError Unit :=
  let n := tag.length
  if n ≠ os then .error MacError.mk
  else if ct_eq_slice computed tag then .ok () else .error MacError.mk

/-- `Mac::verify_truncated_left`: fail when `n == 0 || n > OutputSize`,
otherwise constant-time compare `finalize_fixed()[..n]` with the candidate. -/
def verify_truncated_left (os : Nat) (computed tag : List Nat) :
    Option (Except MacError Unit) :=
  let n := tag.length
  if n = 0 ∨ os < n then some (.error MacError.mk)
  else do
    let fl ← checked_take computed n
    some (if ct_eq_slice fl tag then .ok () else .error MacError.mk)

/-- `Mac::verify_truncated_right`: fail when `n == 0 || n > OutputSize`,
otherwise let `m = OutputSize - n` and constant-time compare
`finalize_fixed()[m..]` with the candidate. -/
def verify_truncated_right (os : Nat) (computed tag : List Nat) :
    Option (Except MacError Unit) :=
  let n := tag.length
  if n = 0 ∨ os < n then some (.error MacError.mk)
  else do
    let m ← checked_sub os n
    let fr ← checked_drop computed m
    some (if ct_eq_slice fr tag then .ok () else .error MacError.mk)

/-- The byte-level constant-time verdict is byte equality. -/
theorem u8_ct_eq_iff (a b : Nat) : u8_ct_eq a b = true ↔ a = b := by
  simp [u8_ct_eq, Nat.xor_eq_zero]

/-- The step counter of the comparison loop adds the list length. -/
theorem ct_fold_steps (l : List (Nat × Nat)) (x : Bool × Nat) :
    (l.foldl (fun acc p => (acc.1 && u8_ct_eq p.1 p.2, acc.2 + 1)) x).2 =
      x.2 + l.length := by
  induction l generalizing x with
  | nil => simp
  | cons p t ih => simp [ih]; omega

/-- The verdict of the comparison loop is the conjunction of the per-byte
verdicts. -/
theorem ct_fold_fst (l : List (Nat × Nat)) (x : Bool × Nat) :
    (l.foldl (fun acc p => (acc.1 && u8_ct_eq p.1 p.2, acc.2 + 1)) x).1 =
      (x.1 && l.all fun p => u8_ct_eq p.1 p.2) := by
  induction l generalizing x with
  | nil => simp
  | cons p t ih => simp [ih, Bool.and_assoc]

/-- For equal-length lists, the zipped all-bytes-equal test is list equality. -/
theorem zip_all_ct (a b : List Nat) (h : a.length = b.length) :
    (((a.zip b).all fun p => u8_ct_eq p.1 p.2) = true) ↔ a = b := by
  induction a generalizing b with
  | nil =>
    cases b with
    | nil => simp
    | cons y s => simp at h
  | cons x t ih =>
    cases b with
    | nil => simp at h
    | cons y s =>
      simp only [List.length_cons, Nat.succ.injEq] at h
      simp [List.zip_cons_cons, List.all_cons, u8_ct_eq_iff, ih s h]

/-- The constant-time slice comparison verdict is plain list equality. -/
theorem ct_eq_slice_iff (a b : List Nat) : ct_eq_slice a b = true ↔ a = b := by
  unfold ct_eq_slice ct_eq_slice_run
  by_cases h : a.length = b.length
  · simp only [h, ne_eq, not_true_eq_false, if_false]
    rw [ct_fold_fst]
    simpa using zip_all_ct a b h
  · simp only [ne_eq, h, not_false_eq_true, if_true]
    constructor
    · intro hf; exact absurd hf (by simp)
    · intro hab; exact absurd (congrArg List.length hab) h

/-- The step count of the constant-time slice comparison is a function of the
two lengths alone. -/
theorem ct_eq_slice_steps_eq (a b : List Nat) :
    ct_eq_slice_steps a b = if a.length = b.length then a.length else 0 := by
  unfold ct_eq_slice_steps ct_eq_slice_run
  by_cases h : a.length = b.length
  · simp [h, ct_fold_steps, List.length_zip, h ▸ Nat.min_self a.length]
  · simp [h]

/-- Any verification verdict is success or the single `MacError` value. -/
theorem except_mac_cases (r : Except MacError Unit) :
    r = Except.ok () ∨ r = Except.error MacError.mk := by
  cases r with
  | ok u => cases u; exact Or.inl rfl
  | error e => cases e; exact Or.inr rfl

/-- The constant-time slice verdict as a decided proposition. -/
theorem ct_eq_slice_eq_decide (a b : List Nat) :
    ct_eq_slice a b = decide (a = b) := by
  by_cases h : a = b
  · subst h
    simp [(ct_eq_slice_iff a a).mpr rfl]
  · rw [decide_eq_false h, Bool.eq_false_iff]
    intro ht
    exact h ((ct_eq_slice_iff a b).mp ht)

/-- Characterization of `verify`: success exactly on byte-for-byte equality. -/
theorem verify_eq (computed tag : List Nat) :
    verify computed tag =
      if computed = tag then Except.ok () else Except.error MacError.mk := by
  unfold verify CtOutput.eq CtOutput.ct_eq CtOutput.new CtOutput.from_output_ref
    CtOutput.from_output
  simp [ct_eq_slice_eq_decide]

/-- Characterization of `verify_slice`. -/
theorem verify_slice_eq (os : Nat) (computed tag : List Nat) :
    verify_slice os computed tag =
      if tag.length ≠ os then Except.error MacError.mk
      else if computed = tag then Except.ok () else Except.error MacError.mk := by
  unfold verify_slice
  simp [ct_eq_slice_eq_decide]

/-- Characterization of `verify_truncated_left` under the collaborator
contract: no panic, guard on the candidate length, then a comparison of the
computed tag's first `tag.length` bytes. -/
theorem vtl_eq (os : Nat) (computed tag : List Nat) (h : computed.length = os) :
    verify_truncated_left os computed tag =
      if tag.length = 0 ∨ os < tag.length then some (Except.error MacError.mk)
      else some (if computed.take tag.length = tag then Except.ok ()
                 else Except.error MacError.mk) := by
  unfold verify_truncated_left
  by_cases hg : tag.length = 0 ∨ os < tag.length
  · rw [if_pos hg, if_pos hg]
  · have hle : tag.length ≤ computed.length := by omega
    simp [hg, checked_take, hle, ct_eq_slice_eq_decide]

/-- Characterization of `verify_truncated_right` under the collaborator
contract: no panic, guard on the candidate length, then a comparison of the
computed tag's last `tag.length` bytes. -/
theorem vtr_eq (os : Nat) (computed tag : List Nat) (h : computed.length = os) :
    verify_truncated_right os computed tag =
      if tag.length = 0 ∨ os < tag.length then some (Except.error MacError.mk)
      else some (if computed.drop (os - tag.length) = tag then Except.ok ()
                 else Except.error MacError.mk) := by
  unfold verify_truncated_right
  by_cases hg : tag.length = 0 ∨ os < tag.length
  · rw [if_pos hg, if_pos hg]
  · have hsub : tag.length ≤ os := by omega
    have hle : os - tag.length ≤ computed.length := by omega
    simp [hg, checked_sub, hsub, checked_drop, hle, ct_eq_slice_eq_decide]

/-- Claim C1: for every MAC instance (declared output size `os`, computed tag
of that length) and every candidate byte slice `tag`, `verify_truncated_left`
returns the uniform authentication failure when `tag` is empty or longer than
`os`; otherwise it succeeds exactly when the first `tag.length` bytes of the
computed tag equal `tag`, and the computed tag's bytes beyond that have no
effect on the verdict. -/
theorem verify_truncated_left_spec (os : Nat) (computed tag : List Nat)
    (h : computed.length = os) :
    ((tag.length = 0 ∨ os < tag.length) →
      verify_truncated_left os computed tag = some (Except.error MacError.mk)) ∧
    (0 < tag.length → tag.length ≤ os →
      (verify_truncated_left os computed tag = some (Except.ok ()) ↔
        computed.take tag.length = tag)) ∧
    (∀ c2 : List Nat, c2.length = os →
      c2.take tag.length = computed.take tag.length →
      verify_truncated_left os c2 tag = verify_truncated_left os computed tag) := by
  refine ⟨fun hg => ?_, fun hp hle => ?_, fun c2 hl2 htake => ?_⟩
  · rw [vtl_eq os computed tag h, if_pos hg]
  · have hg : ¬(tag.length = 0 ∨ os < tag.length) := by omega
    rw [vtl_eq os computed tag h, if_neg hg]
    by_cases hc : computed.take tag.length = tag <;> simp [hc]
  · rw [vtl_eq os c2 tag hl2, vtl_eq os computed tag h, htake]

/-- Witness for C1 at output size 4, computed tag `[1,2,3,4]`, candidate
`[1,2]`. -/
theorem verify_truncated_left_spec_witness :
    ([1, 2, 3, 4] : List Nat).length = 4 ∧ (0 : Nat) < 2 ∧ 2 ≤ 4 ∧
    verify_truncated_left 4 [1, 2, 3, 4] [1, 2] = some (Except.ok ()) := by
  refine ⟨by decide, by decide, by decide, ?_⟩
  exact ((verify_truncated_left_spec 4 [1, 2, 3, 4] [1, 2] (by decide)).2.1
    (by decide) (by decide)).mpr (by decide)

/-- Claim C2: for every MAC instance and every candidate byte slice `tag`,
`verify_truncated_right` returns the uniform authentication failure when `tag`
is empty or longer than `os`; otherwise it succeeds exactly when the last
`tag.length` bytes of the computed tag equal `tag`, and the computed tag's
bytes before that suffix have no effect on the verdict. -/
theorem verify_truncated_right_spec (os : Nat) (computed tag : List Nat)
    (h : computed.length = os) :
    ((tag.length = 0 ∨ os < tag.length) →
      verify_truncated_right os computed tag = some (Except.error MacError.mk)) ∧
    (0 < tag.length → tag.length ≤ os →
      (verify_truncated_right os computed tag = some (Except.ok ()) ↔
        computed.drop (os - tag.length) = tag)) ∧
    (∀ c2 : List Nat, c2.length = os →
      c2.drop (os - tag.length) = computed.drop (os - tag.length) →
      verify_truncated_right os c2 tag = verify_truncated_right os computed tag) := by
  refine ⟨fun hg => ?_, fun hp hle => ?_, fun c2 hl2 hdrop => ?_⟩
  · rw [vtr_eq os computed tag h, if_pos hg]
  · have hg : ¬(tag.length = 0 ∨ os < tag.length) := by omega
    rw [vtr_eq os computed tag h, if_neg hg]
    by_cases hc : computed.drop (os - tag.length) = tag <;> simp [hc]
  · rw [vtr_eq os c2 tag hl2, vtr_eq os computed tag h, hdrop]

/-- Witness for C2 at output size 4, computed tag `[1,2,3,4]`, candidate
`[3,4]`. -/
theorem verify_truncated_right_spec_witness :
    ([1, 2, 3, 4] : List Nat).length = 4 ∧ (0 : Nat) < 2 ∧ 2 ≤ 4 ∧
    verify_truncated_right 4 [1, 2, 3, 4] [3, 4] = some (Except.ok ()) := by
  refine ⟨by decide, by decide, by decide, ?_⟩
  exact ((verify_truncated_right_spec 4 [1, 2, 3, 4] [3, 4] (by decide)).2.1
    (by decide) (by decide)).mpr (by decide)

/-- Claim C3: for every MAC instance and every expected byte slice whose
length differs from the output size (including the empty slice),
`verify_slice` fails — for every computed tag, so without any dependence on
content, even a content-correct shorter slice; when the length matches, it
succeeds exactly when the slice equals the computed full tag. -/
theorem verify_slice_spec (os : Nat) (computed tag : List Nat)
    (_h : computed.length = os) :
    (tag.length ≠ os → verify_slice os computed tag = Except.error MacError.mk) ∧
    (tag.length = os →
      (verify_slice os computed tag = Except.ok () ↔ tag = computed)) := by
  refine ⟨fun hne => ?_, fun heq => ?_⟩
  · rw [verify_slice_eq, if_pos hne]
  · rw [verify_slice_eq, if_neg (by omega)]
    by_cases hc : computed = tag <;> simp [hc, eq_comm]

/-- Witness for C3 at output size 3: a length-2 content-correct slice of the
computed tag `[1,2,3]` is rejected. -/
theorem verify_slice_spec_witness :
    ([1, 2, 3] : List Nat).length = 3 ∧ ([1, 2] : List Nat).length ≠ 3 ∧
    verify_slice 3 [1, 2, 3] [1, 2] = Except.error MacError.mk := by
  refine ⟨by decide, by decide, ?_⟩
  exact (verify_slice_spec 3 [1, 2, 3] [1, 2] (by decide)).1 (by decide)

/-- Claim C4: `verify` applied to the tag an identically keyed instance fed
the same message produces (that is, the same computed tag) succeeds, and in
general `verify` succeeds exactly when the candidate equals the computed tag
byte for byte — any altered candidate fails with the uniform error. -/
theorem verify_spec (computed tag : List Nat) :
    verify computed computed = Except.ok () ∧
    (verify computed tag = Except.ok () ↔ tag = computed) := by
  constructor
  · rw [verify_eq]
    simp
  · rw [verify_eq]
    by_cases hc : computed = tag <;> simp [hc, eq_comm]

/-- Claim C5: the number of byte-comparison steps executed by `CtOutput`
equality depends only on the two buffer lengths, never on the contents or on
where the buffers first differ: the comparison loop has no short circuit. -/
theorem ct_output_eq_constant_time (a b x y : CtOutput)
    (h1 : a.bytes.length = x.bytes.length)
    (h2 : b.bytes.length = y.bytes.length) :
    CtOutput.eq_steps a b = CtOutput.eq_steps x y := by
  unfold CtOutput.eq_steps
  rw [ct_eq_slice_steps_eq, ct_eq_slice_steps_eq, h1, h2]

/-- Witness for C5: comparing equal buffers and buffers differing in the very
first byte costs the same number of steps. -/
theorem ct_output_eq_constant_time_witness :
    (CtOutput.mk [0, 0]).bytes.length = (CtOutput.mk [1, 2]).bytes.length ∧
    (CtOutput.mk [0, 0]).bytes.length = (CtOutput.mk [9, 2]).bytes.length ∧
    CtOutput.eq_steps (CtOutput.mk [0, 0]) (CtOutput.mk [0, 0]) =
      CtOutput.eq_steps (CtOutput.mk [1, 2]) (CtOutput.mk [9, 2]) :=
  ⟨by decide, by decide,
    ct_output_eq_constant_time (CtOutput.mk [0, 0]) (CtOutput.mk [0, 0])
      (CtOutput.mk [1, 2]) (CtOutput.mk [9, 2]) (by decide) (by decide)⟩

/-- Claim C6: `MacError` is a single payload-free value whose description is
exactly `"MAC tag mismatch"`, and every outcome of the four verification entry
points is either success or that one undistinguished error value. -/
theorem mac_error_uniform :
    (∀ e e2 : MacError, e = e2) ∧
    (∀ e : MacError, MacError.fmt e = "MAC tag mismatch") ∧
    (∀ computed tag : List Nat,
      verify computed tag = Except.ok () ∨
      verify computed tag = Except.error MacError.mk) ∧
    (∀ (os : Nat) (computed tag : List Nat),
      verify_slice os computed tag = Except.ok () ∨
      verify_slice os computed tag = Except.error MacError.mk) ∧
    (∀ (os : Nat) (computed tag : List Nat),
      verify_truncated_left os computed tag = none ∨
      verify_truncated_left os computed tag = some (Except.ok ()) ∨
      verify_truncated_left os computed tag = some (Except.error MacError.mk)) ∧
    (∀ (os : Nat) (computed tag : List Nat),
      verify_truncated_right os computed tag = none ∨
      verify_truncated_right os computed tag = some (Except.ok ()) ∨
      verify_truncated_right os computed tag = some (Except.error MacError.mk)) := by
  refine ⟨fun e e2 => by cases e; cases e2; rfl, fun e => rfl,
    fun c t => except_mac_cases _, fun os c t => except_mac_cases _,
    fun os c t => ?_, fun os c t => ?_⟩
  · cases ho : verify_truncated_left os c t with
    | none => exact Or.inl rfl
    | some r =>
      rcases except_mac_cases r with hr | hr
      · exact Or.inr (Or.inl (by rw [hr]))
      · exact Or.inr (Or.inr (by rw [hr]))
  · cases ho : verify_truncated_right os c t with
    | none => exact Or.inl rfl
    | some r =>
      rcases except_mac_cases r with hr | hr
      · exact Or.inr (Or.inl (by rw [hr]))
      · exact Or.inr (Or.inr (by rw [hr]))

/-- Claim C7: under the collaborator contract that the computed tag has
exactly `os` bytes, the truncated verifiers never panic: the length guard
makes the subtraction and both slice indexings in-bounds, so the `Option`
panic layer always yields a value. -/
theorem verify_truncated_no_panic (os : Nat) (computed tag : List Nat)
    (h : computed.length = os) :
    (verify_truncated_left os computed tag).isSome = true ∧
    (verify_truncated_right os computed tag).isSome = true := by
  constructor
  · rw [vtl_eq os computed tag h]
    split <;> rfl
  · rw [vtr_eq os computed tag h]
    split <;> rfl

/-- Witness for C7 at output size 2 with an over-length candidate. -/
theorem verify_truncated_no_panic_witness :
    ([7, 8] : List Nat).length = 2 ∧
    (verify_truncated_right 2 [7, 8] [9, 9, 9]).isSome = true :=
  ⟨by decide, (verify_truncated_no_panic 2 [7, 8] [9, 9, 9] (by decide)).2⟩

/-- Claim C8: on a candidate of length exactly `os` (positive, per the sizing
contract), the four entry points return the same verdict. -/
theorem verify_variants_agree (os : Nat) (computed tag : List Nat)
    (h1 : computed.length = os) (h2 : tag.length = os) (hpos : 0 < os) :
    verify_slice os computed tag = verify computed tag ∧
    verify_truncated_left os computed tag = some (verify computed tag) ∧
    verify_truncated_right os computed tag = some (verify computed tag) := by
  have hg : ¬(tag.length = 0 ∨ os < tag.length) := by omega
  have htake : computed.take tag.length = computed := by
    rw [h2, ← h1]
    simp
  refine ⟨?_, ?_, ?_⟩
  · rw [verify_slice_eq, verify_eq, if_neg (by omega)]
  · rw [vtl_eq os computed tag h1, if_neg hg, htake, verify_eq]
  · rw [vtr_eq os computed tag h1, if_neg hg, verify_eq, h2, Nat.sub_self,
      List.drop_zero]

/-- Witness for C8 at output size 2 with a mismatching candidate. -/
theorem verify_variants_agree_witness :
    ([1, 2] : List Nat).length = 2 ∧ ([1, 3] : List Nat).length = 2 ∧
    (0 : Nat) < 2 ∧ verify_slice 2 [1, 2] [1, 3] = verify [1, 2] [1, 3] :=
  ⟨by decide, by decide, by decide,
    (verify_variants_agree 2 [1, 2] [1, 3] (by decide) (by decide) (by decide)).1⟩

/-- Claim C9: `CtOutput` equality is true exactly on byte-for-byte equal
wrapped arrays, and is reflexive, symmetric and transitive. -/
theorem ct_output_eq_iff (a b c : CtOutput)
    (_h1 : a.bytes.length = b.bytes.length)
    (_h2 : b.bytes.length = c.bytes.length) :
    (CtOutput.eq a b = true ↔ a.bytes = b.bytes) ∧
    CtOutput.eq a a = true ∧
    CtOutput.eq a b = CtOutput.eq b a ∧
    (CtOutput.eq a b = true → CtOutput.eq b c = true →
      CtOutput.eq a c = true) := by
  have key : ∀ x y : CtOutput, CtOutput.eq x y = true ↔ x.bytes = y.bytes := by
    intro x y
    unfold CtOutput.eq CtOutput.ct_eq
    exact ct_eq_slice_iff x.bytes y.bytes
  refine ⟨key a b, (key a a).mpr rfl, ?_,
    fun hab hbc => (key a c).mpr (((key a b).mp hab).trans ((key b c).mp hbc))⟩
  by_cases hab : a.bytes = b.bytes
  · rw [(key a b).mpr hab, (key b a).mpr hab.symm]
  · have ha : CtOutput.eq a b = false := by
      rw [Bool.eq_false_iff]
      intro ht
      exact hab ((key a b).mp ht)
    have hb : CtOutput.eq b a = false := by
      rw [Bool.eq_false_iff]
      intro ht
      exact hab ((key b a).mp ht).symm
    rw [ha, hb]

/-- Witness for C9: equality of wrappers of `[1,2]` and `[1,5]` is decided by
the wrapped bytes. -/
theorem ct_output_eq_iff_witness :
    (CtOutput.mk [1, 2]).bytes.length = (CtOutput.mk [1, 5]).bytes.length ∧
    (CtOutput.mk [1, 5]).bytes.length = (CtOutput.mk [1, 2]).bytes.length ∧
    (CtOutput.eq (CtOutput.mk [1, 2]) (CtOutput.mk [1, 5]) = true ↔
      (CtOutput.mk [1, 2]).bytes = (CtOutput.mk [1, 5]).bytes) :=
  ⟨by decide, by decide,
    (ct_output_eq_iff (CtOutput.mk [1, 2]) (CtOutput.mk [1, 5])
      (CtOutput.mk [1, 2]) (by decide) (by decide)).1⟩

/-- Claim C10: `CtOutput::new` followed by `into_bytes` is the identity on a
byte array of the declared output size, and both `From` conversions agree
with `new`. -/
theorem ct_output_new_into_bytes (os : Nat) (bs : List Nat)
    (_h : bs.length = os) :
    (CtOutput.new bs).into_bytes = bs ∧
    CtOutput.from_output bs = CtOutput.new bs ∧
    CtOutput.from_output_ref bs = CtOutput.new bs :=
  ⟨rfl, rfl, rfl⟩

/-- Witness for C10 at output size 2 on the array `[5,6]`. -/
theorem ct_output_new_into_bytes_witness :
    ([5, 6] : List Nat).length = 2 ∧ (CtOutput.new [5, 6]).into_bytes = [5, 6] :=
  ⟨by decide, (ct_output_new_into_bytes 2 [5, 6] (by decide)).1⟩

end MacSpec
